import Mathlib

/-
Verification of the persistence/repository core of the
Task-and-Contact-Management-Suite repository (three Python tools:
a CSV-backed task planner, a SQLite-backed todo list, a JSON-backed
contact manager).  The definitions below are a shallow embedding of
the relevant source functions; theorems settle the specification
claims about them.
-/

namespace TCMS

/-! ## Task data model (task_planner.py, dataclass Task) -/

structure Task where
  id : String
  title : String
  description : String
  priority : String
  due_date : String
  category : String
  created_at : String
  updated_at : String
  status : String
deriving DecidableEq, Repr

/-- Field names, in declared schema order (`TaskField` enum). -/
def taskFieldnames : List String :=
  ["id", "title", "description", "priority", "due_date", "category",
   "created_at", "updated_at", "status"]

/-- Mutable data fields shared by both task variants (everything except
the identifier and the two timestamps). -/
def mutableDataFields : List String :=
  ["title", "description", "priority", "due_date", "category", "status"]

/-- getattr on a Task restricted to its dataclass fields
(the to_dict method is an attribute but not a string-valued field). -/
def getFieldStr? (t : Task) (f : String) : Option String :=
  if f = "id" then some t.id
  else if f = "title" then some t.title
  else if f = "description" then some t.description
  else if f = "priority" then some t.priority
  else if f = "due_date" then some t.due_date
  else if f = "category" then some t.category
  else if f = "created_at" then some t.created_at
  else if f = "updated_at" then some t.updated_at
  else if f = "status" then some t.status
  else none

/-- setattr on a Task: guarded by hasattr in update_task, so an unknown
field name leaves the record's data fields unchanged. -/
def setField (t : Task) (f v : String) : Task :=
  if f = "id" then { t with id := v }
  else if f = "title" then { t with title := v }
  else if f = "description" then { t with description := v }
  else if f = "priority" then { t with priority := v }
  else if f = "due_date" then { t with due_date := v }
  else if f = "category" then { t with category := v }
  else if f = "created_at" then { t with created_at := v }
  else if f = "updated_at" then { t with updated_at := v }
  else if f = "status" then { t with status := v }
  else t

/-- hasattr(task, f): the dataclass fields plus the to_dict method.
(Python double-underscore attributes are elided; no claim mentions them.) -/
def taskHasattr (f : String) : Bool :=
  taskFieldnames.contains f || f == "to_dict"

/-- getattr(task, f) != value, negated: true when the attribute exists and
equals the string value.  For to_dict the attribute is a method, never
equal to a string. -/
def attrEq (t : Task) (f v : String) : Bool :=
  match getFieldStr? t f with
  | some x => x == v
  | none => false

/-! ## TaskRepository operations (task_planner.py, CSV variant) -/

/-- dict.get(field, default) on the task_data mapping. -/
def dataGet (d : List (String × String)) (f dflt : String) : String :=
  ((d.lookup f).getD dflt)

/-- The Task built by TaskRepository.create_task from task_data,
a fresh uuid string and the current timestamp. -/
def newTask (d : List (String × String)) (tid now : String) : Task :=
  { id := tid
    title := dataGet d "title" ""
    description := dataGet d "description" ""
    priority := dataGet d "priority" "medium"
    due_date := dataGet d "due_date" ""
    category := dataGet d "category" ""
    created_at := now
    updated_at := now
    status := dataGet d "status" "pending" }

/-- TaskRepository.create_task: append the new task, return it. -/
def createTask (s : List Task) (d : List (String × String)) (tid now : String) :
    List Task × Task :=
  (s ++ [newTask d tid now], newTask d tid now)

/-- TaskRepository.get_task: first task with the given id. -/
def getTask : List Task → String → Option Task
  | [], _ => none
  | t :: ts, tid => if t.id = tid then some t else getTask ts tid

/-- Apply the update_data items in order via the hasattr-guarded setattr. -/
def applyUpds (t : Task) (upd : List (String × String)) : Task :=
  upd.foldl (fun a p => setField a p.1 p.2) t

/-- Stamp updated_at with the mutation time (done after the setattr loop). -/
def stampUpdated (t : Task) (now : String) : Task :=
  { t with updated_at := now }

/-- TaskRepository.update_task: mutate the first task whose id matches,
stamp updated_at, return it; None when the id is absent. -/
def updateTask : List Task → String → List (String × String) → String →
    List Task × Option Task
  | [], _, _, _ => ([], none)
  | t :: ts, tid, upd, now =>
    if t.id = tid then
      (stampUpdated (applyUpds t upd) now :: ts,
       some (stampUpdated (applyUpds t upd) now))
    else
      let r := updateTask ts tid upd now
      (t :: r.1, r.2)

/-- TaskRepository.delete_task: drop every task with the id, report whether
the count decreased. -/
def deleteTask (s : List Task) (tid : String) : List Task × Bool :=
  let s2 := s.filter (fun t => t.id != tid)
  (s2, decide (s2.length < s.length))

/-- One filter entry keeps a task unless the attribute exists and differs. -/
def taskMatches (t : Task) (fs : List (String × String)) : Bool :=
  fs.all (fun p => !(taskHasattr p.1 && !(attrEq t p.1 p.2)))

/-- TaskRepository.search_tasks (CSV variant): conjunction of the supplied
filters, each an exact comparison guarded by hasattr. -/
def searchTasks (s : List Task) (fs : List (String × String)) : List Task :=
  s.filter (fun t => taskMatches t fs)

/-! ## CSV persistence (CSVTaskStorage), modelled at the row level:
a file is a list of rows (the csv module's quoting is external to the
repository and is taken as faithful). -/

/-- DictWriter.writerow(task.to_dict()) writes the fields in
fieldnames order. -/
def taskToRow (t : Task) : List String :=
  [t.id, t.title, t.description, t.priority, t.due_date, t.category,
   t.created_at, t.updated_at, t.status]

/-- row.get(field, default) where DictReader builds the row dict by
zipping the header with the row values. -/
def rowGet (header row : List String) (f dflt : String) : String :=
  ((header.zip row).lookup f).getD dflt

/-- The Task rebuilt by CSVTaskStorage.load_tasks from one row. -/
def loadTaskRow (header row : List String) : Task :=
  { id := rowGet header row "id" ""
    title := rowGet header row "title" ""
    description := rowGet header row "description" ""
    priority := rowGet header row "priority" ""
    due_date := rowGet header row "due_date" ""
    category := rowGet header row "category" ""
    created_at := rowGet header row "created_at" ""
    updated_at := rowGet header row "updated_at" ""
    status := rowGet header row "status" "pending" }

/-- CSVTaskStorage.save_tasks file content: header row then one row
per task. -/
def saveTasksFile (ts : List Task) : List (List String) :=
  taskFieldnames :: ts.map taskToRow

/-- CSVTaskStorage.load_tasks: missing file yields the empty list;
otherwise the first row is the header and the rest are parsed rows. -/
def loadTasksFile : Option (List (List String)) → List Task
  | none => []
  | some [] => []
  | some (h :: rows) => rows.map (fun r => loadTaskRow h r)

/-! ## Crash model for save.  File contents are lists of items (rows for
the CSV file, contact objects for the JSON file); an interrupted write
leaves an arbitrary prefix of the intended content on disk, while
rename/replace is atomic. -/

structure FsState (β : Type) where
  canonical : Option (List β)
  temp : Option (List β)
deriving DecidableEq, Repr

inductive FsOp (β : Type) where
  | writeTemp (s : List β)
  | renameTempCanonical
  | writeCanonical (s : List β)
deriving DecidableEq, Repr

/-- Effect of one fully completed file-system operation. -/
def applyFsOp {β : Type} (st : FsState β) : FsOp β → FsState β
  | .writeTemp s => { st with temp := some s }
  | .renameTempCanonical => { canonical := st.temp, temp := none }
  | .writeCanonical s => { st with canonical := some s }

/-- States observable if the process dies in the middle of an operation:
a write may have flushed any prefix of its content (open-for-write
truncates first, so the empty prefix is included); rename is atomic and
has no intermediate state. -/
def midFsStates {β : Type} (st : FsState β) : FsOp β → List (FsState β)
  | .writeTemp s =>
    (List.range (s.length + 1)).map (fun j => { st with temp := some (s.take j) })
  | .renameTempCanonical => []
  | .writeCanonical s =>
    (List.range (s.length + 1)).map
      (fun j => { st with canonical := some (s.take j) })

/-- All states reachable by crashing at any point while the operation
list runs, including before the first and after the last operation. -/
def crashStates {β : Type} (st : FsState β) : List (FsOp β) → List (FsState β)
  | [] => [st]
  | op :: ops => st :: midFsStates st op ++ crashStates (applyFsOp st op) ops

/-- CSVTaskStorage.save_tasks: write the whole file to file_path.tmp,
then os.replace/os.rename it onto the canonical path. -/
def csvSaveOps (ts : List Task) : List (FsOp (List String)) :=
  [.writeTemp (saveTasksFile ts), .renameTempCanonical]

/-! ## Backup retention (CSVTaskStorage._cleanup_old_backups and
DatabaseManager._cleanup_old_backups).  A backup file is identified by
its encoded timestamp; the fixed limit is 5 in both variants. -/

def maxBackupFiles : Nat := 5

/-- Insert into a descending-ordered list (the effect of
files.sort(reverse=True) / sorted(..., reverse=True) on the names,
whose shared prefix makes the order the timestamp order). -/
def insertDescStr (x : String) : List String → List String
  | [] => [x]
  | y :: ys => if y ≤ x then x :: y :: ys else y :: insertDescStr x ys

def sortDescStr (l : List String) : List String :=
  l.foldr insertDescStr []

/-- CSV variant: only when strictly more than the limit exist, sort
descending and delete everything past the first five. -/
def cleanupCsvBackups (files : List String) : List String :=
  if files.length > maxBackupFiles then (sortDescStr files).take maxBackupFiles
  else files

/-- SQLite variant: sort descending, delete everything past the first
five (no length guard; same retained set). -/
def cleanupDbBackups (files : List String) : List String :=
  (sortDescStr files).take maxBackupFiles

/-- One backup() call: create the timestamp-named file, then prune. -/
def csvBackupStep (files : List String) (ts : String) : List String :=
  cleanupCsvBackups (ts :: files)

def dbBackupStep (files : List String) (ts : String) : List String :=
  cleanupDbBackups (ts :: files)

def runCsvBackups (files : List String) (tss : List String) : List String :=
  tss.foldl csvBackupStep files

def runDbBackups (files : List String) (tss : List String) : List String :=
  tss.foldl dbBackupStep files

/-- TaskRepository.create_task against a store whose save may raise:
self.tasks is appended to before save_tasks() runs, and a raised
persistence error propagates without undoing the append.  none models
the propagated error. -/
def createTaskFallible (s : List Task) (d : List (String × String))
    (tid now : String) (saveOk : Bool) : List Task × Option Task :=
  let s2 := s ++ [newTask d tid now]
  if saveOk then (s2, some (newTask d tid now)) else (s2, none)

/-! ## Repository state machine (for the invariant claims).  Each
operation carries the oracle values the code draws at run time
(the uuid4 string and datetime.now()). -/

inductive RepOp where
  | createOp (d : List (String × String)) (tid now : String)
  | updateOp (tid : String) (upd : List (String × String)) (now : String)
  | deleteOp (tid : String)

def stepOp (s : List Task) : RepOp → List Task
  | .createOp d tid now => (createTask s d tid now).1
  | .updateOp tid upd now => (updateTask s tid upd now).1
  | .deleteOp tid => (deleteTask s tid).1

def runOps (s : List Task) (ops : List RepOp) : List Task :=
  ops.foldl stepOp s

/-- Update payloads that leave the identifier and creation time alone
(the SQLite variant enforces this; the CSV variant does not). -/
def UpdOk (upd : List (String × String)) : Prop :=
  ∀ p ∈ upd, p.1 ≠ "id" ∧ p.1 ≠ "created_at"

/-- Side conditions under which an operation is drawn from a real run:
uuid4 values are fresh and datetime.now() is at least every stored
creation time. -/
def OpOk (s : List Task) : RepOp → Prop
  | .createOp _ tid now => tid ∉ s.map Task.id ∧ ∀ t ∈ s, t.created_at ≤ now
  | .updateOp _ upd now => UpdOk upd ∧ ∀ t ∈ s, t.created_at ≤ now
  | .deleteOp _ => True

def ValidFrom (s : List Task) : List RepOp → Prop
  | [] => True
  | op :: ops => OpOk s op ∧ ValidFrom (stepOp s op) ops

/-- The repository invariant: ids pairwise distinct, and no record's
creation time exceeds its update time. -/
def RepoInv (s : List Task) : Prop :=
  (s.map Task.id).Nodup ∧ ∀ t ∈ s, t.created_at ≤ t.updated_at

/-! ## SQLite variant (todo_app.py).  The tasks table is a list of rows;
id is the primary key.  due_date and category are nullable. -/

structure DbTask where
  id : String
  title : String
  description : String
  status : String
  priority : String
  created_at : String
  updated_at : String
  due_date : Option String
  category : Option String
deriving DecidableEq, Repr

/-- row.keys(): the nine column names of the tasks table. -/
def dbColumns : List String :=
  ["id", "title", "description", "status", "priority", "due_date",
   "category", "created_at", "updated_at"]

/-- update_task admits a field when it is a column and not id/created_at. -/
def dbUpdatableCol (f : String) : Bool :=
  dbColumns.contains f && !(f == "id") && !(f == "created_at")

/-- Column value of a row (None for NULL). -/
def dbColVal? (r : DbTask) (f : String) : Option String :=
  if f = "id" then some r.id
  else if f = "title" then some r.title
  else if f = "description" then some r.description
  else if f = "status" then some r.status
  else if f = "priority" then some r.priority
  else if f = "due_date" then r.due_date
  else if f = "category" then r.category
  else if f = "created_at" then some r.created_at
  else if f = "updated_at" then some r.updated_at
  else none

/-- SET f = v for one column. -/
def dbSetField (r : DbTask) (f v : String) : DbTask :=
  if f = "id" then { r with id := v }
  else if f = "title" then { r with title := v }
  else if f = "description" then { r with description := v }
  else if f = "status" then { r with status := v }
  else if f = "priority" then { r with priority := v }
  else if f = "due_date" then { r with due_date := some v }
  else if f = "category" then { r with category := some v }
  else if f = "created_at" then { r with created_at := v }
  else if f = "updated_at" then { r with updated_at := v }
  else r

def dbApplyUpds (r : DbTask) (upd : List (String × String)) : DbTask :=
  upd.foldl (fun a p => dbSetField a p.1 p.2) r

def dbStampUpdated (r : DbTask) (now : String) : DbTask :=
  { r with updated_at := now }

/-- TaskRepository.update_task (SQLite variant): re-select the row; when
absent, or when no supplied field is an updatable column, return None;
otherwise apply the SET clauses plus updated_at and return the row
re-selected after the UPDATE. -/
def dbUpdate (rows : List DbTask) (tid : String)
    (upd : List (String × String)) (now : String) :
    List DbTask × Option DbTask :=
  match rows.find? (fun r => r.id == tid) with
  | none => (rows, none)
  | some _ =>
    let flds := upd.filter (fun p => dbUpdatableCol p.1)
    if flds.isEmpty then (rows, none)
    else
      let rows2 := rows.map (fun r =>
        if r.id = tid then dbStampUpdated (dbApplyUpds r flds) now else r)
      (rows2, rows2.find? (fun r => r.id == tid))

/-- The row built by TaskRepository.create_task (SQLite variant). -/
def dbNewTask (d : List (String × Option String)) (tid now : String) : DbTask :=
  { id := tid
    title := ((d.lookup "title").getD none).getD ""
    description := ((d.lookup "description").getD (some "")).getD ""
    status := "pending"
    priority := ((d.lookup "priority").getD (some "medium")).getD "medium"
    created_at := now
    updated_at := now
    due_date := (d.lookup "due_date").getD none
    category := (d.lookup "category").getD none }

/-- INSERT of the new row; the PRIMARY KEY constraint on id is the only
uniqueness constraint, so the insert fails exactly when id collides. -/
def dbCreate (rows : List DbTask) (d : List (String × Option String))
    (tid now : String) : Option (List DbTask) :=
  if tid ∈ rows.map DbTask.id then none
  else some (rows ++ [dbNewTask d tid now])

/-! ### SQL LIKE, as SQLite evaluates the pattern built by search_tasks
(case-insensitive; the percent and underscore wildcards). -/

/-- A percent wildcard lets the rest of the pattern match at any
suffix. -/
def likeSkip (f : List Char → Bool) : List Char → Bool
  | [] => f []
  | d :: s2 => f (d :: s2) || likeSkip f s2

def likeMatch : List Char → List Char → Bool
  | [], s => s.isEmpty
  | p :: ps, s =>
    if p = '%' then likeSkip (likeMatch ps) s
    else
      match s with
      | [] => false
      | d :: s2 => (if p = '_' then true else p == d) && likeMatch ps s2

/-- Case folding (str.lower / SQLite's LIKE folding), at the character
level. -/
def strLower (s : String) : List Char :=
  s.toList.map Char.toLower

/-- col LIKE ? with parameter f-string percent-value-percent, under
SQLite's case folding. -/
def dbLike (col v : String) : Bool :=
  likeMatch ('%' :: strLower v ++ ['%']) (strLower col)

/-- The conditions appended to the WHERE clause by search_tasks: LIKE for
the free-text columns, equality for the enumerated ones, and nothing at
all for other fields or falsy (empty) values. -/
inductive DbCond where
  | likeCond (f v : String)
  | eqCond (f v : String)
deriving DecidableEq, Repr

def buildConds (fs : List (String × String)) : List DbCond :=
  fs.filterMap (fun p =>
    if (p.1 = "title" ∨ p.1 = "description" ∨ p.1 = "category") ∧ p.2 ≠ "" then
      some (.likeCond p.1 p.2)
    else if (p.1 = "status" ∨ p.1 = "priority") ∧ p.2 ≠ "" then
      some (.eqCond p.1 p.2)
    else none)

/-- SQL evaluation of one condition on a row; a NULL column makes both
LIKE and equality non-true. -/
def evalCond (r : DbTask) : DbCond → Bool
  | .likeCond f v =>
    match dbColVal? r f with
    | some s => dbLike s v
    | none => false
  | .eqCond f v =>
    match dbColVal? r f with
    | some s => s == v
    | none => false

/-- TaskRepository.search_tasks (SQLite variant): the rows satisfying
every generated condition.  (ORDER BY created_at DESC only reorders the
result and is elided; the claims are order-insensitive.) -/
def dbSearch (rows : List DbTask) (fs : List (String × String)) : List DbTask :=
  rows.filter (fun r => (buildConds fs).all (evalCond r))

/-! ## Contact manager (contacts.py). -/

structure Contact where
  name : String
  phone : String
  email : String
deriving DecidableEq, Repr

inductive ContactErr where
  | validationFail
  | dup
  | db
deriving DecidableEq, Repr

/-- Character class of the phone regex: digits, whitespace, minus and
parentheses. -/
def phoneChar (c : Char) : Bool :=
  c.isDigit || c.isWhitespace || c == '-' || c == '(' || c == ')'

/-- Full match of the phone pattern: an optional leading plus, then at
least seven characters of the class. -/
def phoneOk (p : String) : Bool :=
  let cs := match p.toList with
    | '+' :: rest => rest
    | cs => cs
  decide (cs.length ≥ 7) && cs.all phoneChar

/-- Position 1 .. length-2 holds a dot: the domain part of the email
pattern (at least one character before and after some dot). -/
def dotOk (l : List Char) : Bool :=
  (l.drop 1).dropLast.contains '.'

/-- Split at the first occurrence of a character, if any. -/
def splitAtFirst (c : Char) : List Char → Option (List Char × List Char)
  | [] => none
  | d :: rest =>
    if d = c then some ([], rest)
    else
      match splitAtFirst c rest with
      | none => none
      | some (a, b) => some (d :: a, b)

/-- Full match of the email pattern: nonempty at-free local part, one at
sign, and an at-free domain with an interior dot. -/
def emailOk (e : String) : Bool :=
  match splitAtFirst '@' e.toList with
  | none => false
  | some (l, d) => !l.isEmpty && !d.contains '@' && dotOk d

/-- ContactManager._validate_contact.  name.strip() is empty exactly when
every character is whitespace. -/
def validContact (n p e : String) : Bool :=
  n.toList.any (fun c => !c.isWhitespace) && phoneOk p && emailOk e

/-- ContactManager._find_contact_index: case-insensitive name lookup. -/
def findContactIndex (cs : List Contact) (n : String) : Option Nat :=
  cs.findIdx? (fun c => strLower c.name == strLower n)

/-- ContactManager.add_contact: validate, reject a duplicate name,
otherwise append and save. -/
def addContact (cs : List Contact) (n p e : String) :
    Except ContactErr (List Contact) :=
  if !(validContact n p e) then .error .validationFail
  else if (findContactIndex cs n).isSome then .error .dup
  else .ok (cs ++ [⟨n, p, e⟩])

/-- add_contact against a store whose save may raise: the append has
already happened when _save_contacts raises, and the DatabaseError
propagates without undoing it. -/
def addContactFallible (cs : List Contact) (n p e : String) (saveOk : Bool) :
    List Contact × Except ContactErr Unit :=
  if !(validContact n p e) then (cs, .error .validationFail)
  else if (findContactIndex cs n).isSome then (cs, .error .dup)
  else
    let cs2 := cs ++ [⟨n, p, e⟩]
    if saveOk then (cs2, .ok ()) else (cs2, .error .db)

/-- ContactManager._save_contacts writes the JSON document directly onto
the canonical path (no temporary file, no rename). -/
def jsonSaveOps (cs : List Contact) : List (FsOp Contact) :=
  [.writeCanonical cs]

/-- The JSON document written by _save_contacts (json.dump of the list;
the json module's encoding is external and taken as faithful). -/
def saveContactsFile (cs : List Contact) : Option (List Contact) :=
  some cs

/-- ContactManager._load_contacts: a missing file yields the empty list,
otherwise the parsed document. -/
def loadContactsFile : Option (List Contact) → List Contact
  | none => []
  | some cs => cs

/-- Case-insensitive substring containment, the semantics the spec
ascribes to free-text search predicates. -/
def ContainsCI (hay pat : String) : Prop :=
  ∃ a b, strLower hay = a ++ strLower pat ++ b

/-- The spec's search semantics for the database variant: substring for
the free-text columns, equality for the enumerated ones; empty values
and other fields impose nothing. -/
def dbSpecMatch (r : DbTask) (f v : String) : Prop :=
  if (f = "title" ∨ f = "description" ∨ f = "category") ∧ v ≠ "" then
    ∃ s, dbColVal? r f = some s ∧ ContainsCI s v
  else if (f = "status" ∨ f = "priority") ∧ v ≠ "" then
    dbColVal? r f = some v
  else True

/-- The CSV variant's actual search semantics: an exact comparison on
every attribute the record has. -/
def csvSpecMatch (t : Task) (f v : String) : Prop :=
  taskHasattr f = true → attrEq t f v = true

/-! ## Sample records used by witnesses and counterexamples. -/

def sampleTask : Task :=
  { id := "a1", title := "Buy milk", description := "groceries"
    priority := "high", due_date := "2099-01-01", category := "home"
    created_at := "2026-01-01T00:00:00", updated_at := "2026-01-01T00:00:00"
    status := "pending" }

def dbRow0 : DbTask :=
  { id := "a1", title := "Buy milk", description := "groceries"
    status := "pending", priority := "high"
    created_at := "2026-01-01T00:00:00", updated_at := "2026-01-01T00:00:00"
    due_date := none, category := none }

def contactA : Contact := ⟨"Alice", "1234567", "alice@mail.com"⟩

def contactB : Contact := ⟨"Bob", "7654321", "bob@mail.com"⟩

/-! ## Shared helper lemmas -/

theorem append_singleton_ne {α : Type} (s : List α) (x : α) : s ++ [x] ≠ s := by
  intro h
  have h2 := congrArg List.length h
  simp at h2

theorem loadTaskRow_taskToRow (t : Task) :
    loadTaskRow taskFieldnames (taskToRow t) = t := rfl

theorem length_insertDescStr (x : String) (l : List String) :
    (insertDescStr x l).length = l.length + 1 := by
  induction l with
  | nil => rfl
  | cons y ys ih => simp only [insertDescStr]; split <;> simp [ih]

theorem length_sortDescStr (l : List String) :
    (sortDescStr l).length = l.length := by
  induction l with
  | nil => rfl
  | cons y ys ih => simp [sortDescStr, List.foldr] at ih ⊢
                    simp [length_insertDescStr, ih]

theorem length_cleanupCsvBackups (l : List String) :
    (cleanupCsvBackups l).length = min l.length maxBackupFiles := by
  unfold cleanupCsvBackups
  split <;> rename_i h
  · simp [length_sortDescStr]
    omega
  · omega

theorem length_cleanupDbBackups (l : List String) :
    (cleanupDbBackups l).length = min l.length maxBackupFiles := by
  unfold cleanupDbBackups
  simp [length_sortDescStr]
  exact min_comm _ _

theorem length_runCsvBackups (tss : List String) :
    ∀ s : List String, s.length ≤ maxBackupFiles →
      (runCsvBackups s tss).length = min (s.length + tss.length) maxBackupFiles := by
  induction tss with
  | nil => intro s hs; simp [runCsvBackups]; omega
  | cons ts tss ih =>
    intro s hs
    have h1 : (csvBackupStep s ts).length = min (s.length + 1) maxBackupFiles := by
      simp [csvBackupStep, length_cleanupCsvBackups]
    have h2 := ih (csvBackupStep s ts) (by omega)
    simp only [runCsvBackups, List.foldl] at h2 ⊢
    rw [h2, h1]
    simp [maxBackupFiles] at *
    omega

theorem length_runDbBackups (tss : List String) :
    ∀ s : List String, s.length ≤ maxBackupFiles →
      (runDbBackups s tss).length = min (s.length + tss.length) maxBackupFiles := by
  induction tss with
  | nil => intro s hs; simp [runDbBackups]; omega
  | cons ts tss ih =>
    intro s hs
    have h1 : (dbBackupStep s ts).length = min (s.length + 1) maxBackupFiles := by
      simp [dbBackupStep, length_cleanupDbBackups]
    have h2 := ih (dbBackupStep s ts) (by omega)
    simp only [runDbBackups, List.foldl] at h2 ⊢
    rw [h2, h1]
    simp [maxBackupFiles] at *
    omega

/-! ## Claim C2 -/

/-- Claim C2: saving a record set and loading it back returns the same
records, for the CSV file backend and for the JSON document backend
(the two backends with a full-set save). -/
theorem load_save_roundtrip :
    (∀ ts : List Task, loadTasksFile (some (saveTasksFile ts)) = ts) ∧
    (∀ cs : List Contact, loadContactsFile (saveContactsFile cs) = cs) := by
  constructor
  · intro ts
    simp only [loadTasksFile, saveTasksFile, List.map_map]
    exact (List.map_congr_left (fun t _ => loadTaskRow_taskToRow t)).trans
      (List.map_id _)
  · intro cs
    rfl

/-! ## Claim C10 -/

/-- Claim C10: in the CSV variant, search with no filters returns every
record, and a filter naming something that is not an attribute of the
record does not restrict the result. -/
theorem csv_search_empty_and_unknown_filters :
    (∀ s : List Task, searchTasks s [] = s) ∧
    (∀ (s : List Task) (fs : List (String × String)) (f v : String),
      taskHasattr f = false →
      searchTasks s ((f, v) :: fs) = searchTasks s fs) := by
  constructor
  · intro s
    simp [searchTasks, taskMatches]
  · intro s fs f v hf
    simp [searchTasks, taskMatches, hf]

/-- Claim C10 witness. -/
theorem csv_search_empty_and_unknown_filters_witness :
    taskHasattr "frobnicate" = false ∧
    searchTasks [sampleTask] [("frobnicate", "x")] = searchTasks [sampleTask] [] := by
  refine ⟨by decide, ?_⟩
  exact csv_search_empty_and_unknown_filters.2 [sampleTask] [] "frobnicate" "x"
    (by decide)

/-! ## Claim C1 -/

/-- Claim C1 counterexample: the JSON backend's save writes straight onto
the canonical path, so a crash just after the open-for-write truncates
the file leaves a state that is neither the old nor the new record set. -/
theorem json_save_not_crash_atomic :
    ∃ st ∈ crashStates (FsState.mk (some [contactA]) none) (jsonSaveOps [contactB]),
      st.canonical ≠ some [contactA] ∧ st.canonical ≠ some [contactB] := by
  decide

/-- Claim C1 (amended): the CSV backend's save is crash-atomic — it
writes the whole file to a temporary path and installs it with one
atomic rename, so every crash state shows the old or the new canonical
content — but the JSON backend writes the canonical file directly and a
crash can leave it partially written. -/
theorem save_crash_atomicity_by_backend :
    (∀ (init : FsState (List String)) (ts : List Task),
      ∀ st ∈ crashStates init (csvSaveOps ts),
        st.canonical = init.canonical ∨ st.canonical = some (saveTasksFile ts)) ∧
    (∃ st ∈ crashStates (FsState.mk (some [contactA]) none) (jsonSaveOps [contactB]),
      st.canonical ≠ some [contactA] ∧ st.canonical ≠ some [contactB]) := by
  constructor
  · intro init ts st hst
    simp only [csvSaveOps, crashStates, midFsStates, applyFsOp,
      List.append_nil] at hst
    rcases List.mem_cons.mp hst with rfl | hst2
    · left; rfl
    rcases List.mem_append.mp hst2 with hmid | hst3
    · rcases List.mem_map.mp hmid with ⟨j, -, rfl⟩
      left; rfl
    rcases List.mem_append.mp hst3 with hst4 | hst5
    · rcases List.mem_singleton.mp hst4 with rfl
      left; rfl
    · rcases List.mem_singleton.mp hst5 with rfl
      right; rfl
  · decide

/-- Claim C1 witness for the universally quantified part, at a concrete
crash state (the state just after the temp write completes). -/
theorem save_crash_atomicity_by_backend_witness :
    (FsState.mk (some [taskFieldnames]) (some (saveTasksFile [sampleTask]))).canonical
        = (FsState.mk (some [taskFieldnames]) (none : Option (List (List String)))).canonical ∨
    (FsState.mk (some [taskFieldnames]) (some (saveTasksFile [sampleTask]))).canonical
        = some (saveTasksFile [sampleTask]) :=
  save_crash_atomicity_by_backend.1 (FsState.mk (some [taskFieldnames]) none)
    [sampleTask]
    (FsState.mk (some [taskFieldnames]) (some (saveTasksFile [sampleTask])))
    (by decide)

/-! ## Claim C8 -/

/-- Claim C8: starting with no backups, after each of k backup calls with
distinct encoded timestamps the number of retained backups is
min k 5, in both the CSV and the SQLite variant. -/
theorem backup_retention_bound :
    ∀ tss : List String, tss.Nodup →
      ∀ k, k ≤ tss.length →
        (runCsvBackups [] (tss.take k)).length = min k maxBackupFiles ∧
        (runDbBackups [] (tss.take k)).length = min k maxBackupFiles := by
  intro tss _ k hk
  have hlen : (tss.take k).length = k := by simp; omega
  constructor
  · have := length_runCsvBackups (tss.take k) [] (by simp [maxBackupFiles])
    simpa [hlen] using this
  · have := length_runDbBackups (tss.take k) [] (by simp [maxBackupFiles])
    simpa [hlen] using this

/-- Claim C8 witness: seven distinct backups retain exactly five files. -/
theorem backup_retention_bound_witness :
    (runCsvBackups [] (["t1", "t2", "t3", "t4", "t5", "t6", "t7"].take 7)).length
        = min 7 maxBackupFiles ∧
    (runDbBackups [] (["t1", "t2", "t3", "t4", "t5", "t6", "t7"].take 7)).length
        = min 7 maxBackupFiles :=
  backup_retention_bound ["t1", "t2", "t3", "t4", "t5", "t6", "t7"]
    (by decide) 7 (by decide)

/-! ## Claim C7 -/

/-- Claim C7 counterexample: when save fails during create, the caller is
told, but the in-memory record set is NOT rolled back — the new task is
still there, so cache and disk diverge. -/
theorem create_no_rollback_on_save_failure :
    (createTaskFallible [] [] "id1" "T1" false).2 = none ∧
    (createTaskFallible [] [] "id1" "T1" false).1 ≠ [] := by
  decide

/-- Claim C7 (amended): in both flat-file variants a save failure during
a create is reported to the caller, but the in-memory mutation is kept,
leaving the cache different from its pre-operation state. -/
theorem save_failure_reports_error_keeps_mutation :
    (∀ (s : List Task) (d : List (String × String)) (tid now : String),
      (createTaskFallible s d tid now false).2 = none ∧
      (createTaskFallible s d tid now false).1 = s ++ [newTask d tid now] ∧
      (createTaskFallible s d tid now false).1 ≠ s) ∧
    (∀ (cs : List Contact) (n p e : String),
      validContact n p e = true → findContactIndex cs n = none →
      (addContactFallible cs n p e false).2 = .error .db ∧
      (addContactFallible cs n p e false).1 = cs ++ [⟨n, p, e⟩] ∧
      (addContactFallible cs n p e false).1 ≠ cs) := by
  constructor
  · intro s d tid now
    refine ⟨rfl, rfl, ?_⟩
    exact append_singleton_ne s (newTask d tid now)
  · intro cs n p e hv hf
    simp only [addContactFallible, hv, hf]
    refine ⟨rfl, rfl, ?_⟩
    exact append_singleton_ne cs ⟨n, p, e⟩

/-- Claim C7 witness. -/
theorem save_failure_reports_error_keeps_mutation_witness :
    validContact "Carol" "1234567" "carol@mail.com" = true ∧
    (addContactFallible [] "Carol" "1234567" "carol@mail.com" false).2
        = .error .db ∧
    (addContactFallible [] "Carol" "1234567" "carol@mail.com" false).1
        = [] ++ [⟨"Carol", "1234567", "carol@mail.com"⟩] ∧
    (addContactFallible [] "Carol" "1234567" "carol@mail.com" false).1 ≠ [] :=
  ⟨by decide,
   save_failure_reports_error_keeps_mutation.2 [] "Carol" "1234567"
     "carol@mail.com" (by decide) (by decide)⟩

/-! ## Claim C9 -/

/-- Claim C9 counterexample: the contact variant refuses a new contact
whose (validly formed) name equals an existing one case-insensitively,
so a non-id field does carry a uniqueness constraint. -/
theorem add_contact_duplicate_name_rejected :
    addContact [contactA] "alice" "7654321" "bob@mail.com" = .error .dup ∧
    validContact "alice" "7654321" "bob@mail.com" = true :=
  ⟨rfl, rfl⟩

/-- Claim C9 (amended): the two task variants impose no uniqueness
constraint beyond the id — CSV create always appends, and the database
insert succeeds whenever the id is fresh, whatever the other fields —
but the contact variant rejects a duplicate name (case-insensitive). -/
theorem uniqueness_constraints_by_variant :
    (∀ (s : List Task) (d : List (String × String)) (tid now : String),
      (createTask s d tid now).1 = s ++ [newTask d tid now]) ∧
    (∀ (rows : List DbTask) (d : List (String × Option String)) (tid now : String),
      tid ∉ rows.map DbTask.id →
      dbCreate rows d tid now = some (rows ++ [dbNewTask d tid now])) ∧
    (∀ (cs : List Contact) (n p e : String),
      validContact n p e = true → (findContactIndex cs n).isSome = true →
      addContact cs n p e = .error .dup) := by
  refine ⟨fun s d tid now => rfl, ?_, ?_⟩
  · intro rows d tid now h
    simp [dbCreate, h]
  · intro cs n p e hv hf
    simp [addContact, hv, hf]

/-- Claim C9 witness. -/
theorem uniqueness_constraints_by_variant_witness :
    ("c9" ∉ ([dbRow0].map DbTask.id) ∧
      dbCreate [dbRow0] [] "c9" "T1" = some ([dbRow0] ++ [dbNewTask [] "c9" "T1"])) ∧
    (validContact "alice" "7654321" "bob@mail.com" = true ∧
      addContact [contactA] "alice" "7654321" "bob@mail.com" = .error .dup) :=
  ⟨⟨by decide, uniqueness_constraints_by_variant.2.1 [dbRow0] [] "c9" "T1" (by decide)⟩,
   ⟨by decide, uniqueness_constraints_by_variant.2.2 [contactA] "alice" "7654321"
     "bob@mail.com" (by decide) (by decide)⟩⟩

/-! ## Counterexamples for Claims C3, C4, C5, C6 -/

/-- Claim C3 counterexample: in the CSV variant a title filter is an
exact comparison, so a record whose title contains the filter value as a
proper case-insensitive substring is NOT returned. -/
theorem csv_search_title_not_substring :
    searchTasks [sampleTask] [("title", "milk")] = [] ∧
    sampleTask.title = "Buy milk" ∧
    ContainsCI "Buy milk" "milk" := by
  refine ⟨by decide, by decide, ⟨['b', 'u', 'y', ' '], [], by decide⟩⟩

/-- Claim C4 counterexample: the CSV variant's update happily overwrites
the id field, so an id is not immutable once assigned. -/
theorem update_can_change_id :
    ((updateTask [sampleTask] "a1" [("id", "zz")] "T2").1).map Task.id = ["zz"] ∧
    ([sampleTask].map Task.id = ["a1"]) ∧ ("zz" : String) ≠ "a1" := by
  decide

/-- Claim C5 counterexample: a single-field update naming updated_at does
not leave that field equal to the supplied value — the post-loop stamp
overwrites it with the mutation time. -/
theorem update_named_field_not_always_set :
    (updateTask [sampleTask] "a1" [("updated_at", "X")] "T2").2
        = some { sampleTask with updated_at := "T2" } ∧
    ("T2" : String) ≠ "X" := by
  decide

/-- Claim C6 counterexample: the database variant's update returns an
absent result for an id that IS present when no supplied field is an
updatable column, so absence of the result does not imply absence of the
id. -/
theorem db_update_present_id_can_return_absent :
    (dbUpdate [dbRow0] "a1" [] "T2").2 = none ∧
    (∃ r ∈ [dbRow0], r.id = "a1") := by
  decide

/-! ## Field-preservation helper lemmas -/

theorem dbUpdatableCol_ne_id {f : String} (h : dbUpdatableCol f = true) :
    f ≠ "id" := by
  intro hf
  subst hf
  exact absurd h (by decide)

theorem dbSetField_id {r : DbTask} {f v : String} (h : f ≠ "id") :
    (dbSetField r f v).id = r.id := by
  unfold dbSetField
  split_ifs <;> simp_all

theorem dbApplyUpds_id {flds : List (String × String)}
    (h : ∀ p ∈ flds, dbUpdatableCol p.1 = true) (r : DbTask) :
    (dbApplyUpds r flds).id = r.id := by
  induction flds generalizing r with
  | nil => rfl
  | cons p ps ih =>
    calc (dbApplyUpds r (p :: ps)).id
        = (dbApplyUpds (dbSetField r p.1 p.2) ps).id := rfl
      _ = (dbSetField r p.1 p.2).id :=
          ih (fun q hq => h q (List.mem_cons_of_mem _ hq)) _
      _ = r.id := dbSetField_id (dbUpdatableCol_ne_id (h p (List.mem_cons_self _ _)))

theorem setField_id {t : Task} {f v : String} (h : f ≠ "id") :
    (setField t f v).id = t.id := by
  unfold setField
  split_ifs <;> simp_all

theorem setField_created_at {t : Task} {f v : String} (h : f ≠ "created_at") :
    (setField t f v).created_at = t.created_at := by
  unfold setField
  split_ifs <;> simp_all

theorem applyUpds_id {upd : List (String × String)}
    (h : ∀ p ∈ upd, p.1 ≠ "id") (t : Task) :
    (applyUpds t upd).id = t.id := by
  induction upd generalizing t with
  | nil => rfl
  | cons p ps ih =>
    calc (applyUpds t (p :: ps)).id
        = (applyUpds (setField t p.1 p.2) ps).id := rfl
      _ = (setField t p.1 p.2).id :=
          ih (fun q hq => h q (List.mem_cons_of_mem _ hq)) _
      _ = t.id := setField_id (h p (List.mem_cons_self _ _))

theorem applyUpds_created_at {upd : List (String × String)}
    (h : ∀ p ∈ upd, p.1 ≠ "created_at") (t : Task) :
    (applyUpds t upd).created_at = t.created_at := by
  induction upd generalizing t with
  | nil => rfl
  | cons p ps ih =>
    calc (applyUpds t (p :: ps)).created_at
        = (applyUpds (setField t p.1 p.2) ps).created_at := rfl
      _ = (setField t p.1 p.2).created_at :=
          ih (fun q hq => h q (List.mem_cons_of_mem _ hq)) _
      _ = t.created_at := setField_created_at (h p (List.mem_cons_self _ _))

/-! ## Claim C6 -/

theorem csv_update_isSome (s : List Task) (tid : String)
    (upd : List (String × String)) (now : String) :
    ((updateTask s tid upd now).2).isSome = true ↔ ∃ t ∈ s, t.id = tid := by
  induction s with
  | nil => simp [updateTask]
  | cons t ts ih =>
    by_cases h : t.id = tid
    · simp [updateTask, h]
    · simp [updateTask, h, ih]

theorem db_update_isSome (rows : List DbTask) (tid : String)
    (upd : List (String × String)) (now : String) :
    ((dbUpdate rows tid upd now).2).isSome = true ↔
      ((∃ r ∈ rows, r.id = tid) ∧ ∃ p ∈ upd, dbUpdatableCol p.1 = true) := by
  unfold dbUpdate
  cases hfind : rows.find? (fun r => r.id == tid) with
  | none =>
    simp only [Option.isSome_none, Bool.false_eq_true, false_iff]
    rintro ⟨⟨r, hr, hid⟩, -⟩
    have h2 := List.find?_eq_none.mp hfind r hr
    simp [hid] at h2
  | some r0 =>
    have hmem : r0 ∈ rows := List.mem_of_find?_eq_some hfind
    have hid : r0.id = tid := by
      have h3 := List.find?_some hfind
      simpa using h3
    by_cases hemp : (upd.filter (fun p => dbUpdatableCol p.1)).isEmpty = true
    · simp only [hemp, if_true, Option.isSome_none, Bool.false_eq_true, false_iff]
      rintro ⟨-, p, hp, hcol⟩
      rw [List.isEmpty_iff] at hemp
      have h4 := List.filter_eq_nil_iff.mp hemp p hp
      simp [hcol] at h4
    · simp only [hemp, if_false, Bool.false_eq_true]
      have hflds : ∀ p ∈ upd.filter (fun p => dbUpdatableCol p.1),
          dbUpdatableCol p.1 = true := by
        intro p hp
        simpa using List.of_mem_filter hp
      have hsome : ((rows.map (fun r =>
          if r.id = tid then
            dbStampUpdated (dbApplyUpds r (upd.filter (fun p => dbUpdatableCol p.1))) now
          else r)).find? (fun r => r.id == tid)).isSome = true := by
        rw [List.find?_isSome]
        refine ⟨dbStampUpdated
          (dbApplyUpds r0 (upd.filter (fun p => dbUpdatableCol p.1))) now, ?_, ?_⟩
        · rw [List.mem_map]
          exact ⟨r0, hmem, by simp [hid]⟩
        · simp [dbStampUpdated, dbApplyUpds_id hflds, hid]
      rw [hsome]
      simp only [true_iff]
      refine ⟨⟨r0, hmem, hid⟩, ?_⟩
      have hne : upd.filter (fun p => dbUpdatableCol p.1) ≠ [] := by
        intro h0
        rw [List.isEmpty_iff] at hemp
        exact hemp h0
      obtain ⟨q, hq⟩ := List.exists_mem_of_ne_nil _ hne
      exact ⟨q, List.mem_of_mem_filter hq, by simpa using List.of_mem_filter hq⟩

/-- Claim C6 (amended): in the CSV variant, update returns an absent
result exactly when the id is absent; in the database variant, the
result is absent exactly when the id is absent OR none of the supplied
fields is an updatable column (a normal outcome in both cases, not a
generic fault). -/
theorem update_not_found_semantics :
    (∀ (s : List Task) (tid : String) (upd : List (String × String)) (now : String),
      ((updateTask s tid upd now).2).isSome = true ↔ ∃ t ∈ s, t.id = tid) ∧
    (∀ (rows : List DbTask) (tid : String) (upd : List (String × String)) (now : String),
      ((dbUpdate rows tid upd now).2).isSome = true ↔
        ((∃ r ∈ rows, r.id = tid) ∧ ∃ p ∈ upd, dbUpdatableCol p.1 = true)) :=
  ⟨csv_update_isSome, db_update_isSome⟩

/-- Claim C6 witness. -/
theorem update_not_found_semantics_witness :
    (((updateTask [sampleTask] "a1" [("title", "x")] "T2").2).isSome = true) ∧
    (((dbUpdate [dbRow0] "a1" [("title", "x")] "T2").2).isSome = true) :=
  ⟨(update_not_found_semantics.1 [sampleTask] "a1" [("title", "x")] "T2").mpr
     ⟨sampleTask, by decide⟩,
   (update_not_found_semantics.2 [dbRow0] "a1" [("title", "x")] "T2").mpr
     (by refine ⟨⟨dbRow0, by decide⟩, ("title", "x"), by decide⟩)⟩

/-! ## Claim C4 -/

theorem updateTask_map_id {upd : List (String × String)} (h : UpdOk upd)
    (s : List Task) (tid now : String) :
    ((updateTask s tid upd now).1).map Task.id = s.map Task.id := by
  induction s with
  | nil => rfl
  | cons t ts ih =>
    by_cases ht : t.id = tid
    · have hid : (applyUpds t upd).id = t.id :=
        applyUpds_id (fun p hp => (h p hp).1) t
      simp [updateTask, ht, stampUpdated, hid]
    · simp [updateTask, ht, ih]

theorem updateTask_times {upd : List (String × String)} (h : UpdOk upd)
    (tid now : String) :
    ∀ s : List Task, (∀ t ∈ s, t.created_at ≤ t.updated_at) →
      (∀ t ∈ s, t.created_at ≤ now) →
      ∀ u ∈ (updateTask s tid upd now).1, u.created_at ≤ u.updated_at := by
  intro s
  induction s with
  | nil =>
    intro _ _ u hu
    simp [updateTask] at hu
  | cons t ts ih =>
    intro hs hnow u hu
    by_cases ht : t.id = tid
    · rw [show updateTask (t :: ts) tid upd now
          = (stampUpdated (applyUpds t upd) now :: ts,
             some (stampUpdated (applyUpds t upd) now)) from by
            simp [updateTask, ht]] at hu
      rcases List.mem_cons.mp hu with rfl | hu2
      · have hc : (applyUpds t upd).created_at = t.created_at :=
          applyUpds_created_at (fun p hp => (h p hp).2) t
        show (stampUpdated (applyUpds t upd) now).created_at ≤ now
        rw [show (stampUpdated (applyUpds t upd) now).created_at
            = (applyUpds t upd).created_at from rfl, hc]
        exact hnow t (by simp)
      · exact hs u (List.mem_cons_of_mem _ hu2)
    · rw [show (updateTask (t :: ts) tid upd now).1
          = t :: (updateTask ts tid upd now).1 from by simp [updateTask, ht]] at hu
      rcases List.mem_cons.mp hu with rfl | hu2
      · exact hs u (by simp)
      · exact ih (fun x hx => hs x (List.mem_cons_of_mem _ hx))
          (fun x hx => hnow x (List.mem_cons_of_mem _ hx)) u hu2

theorem createTask_inv (s : List Task) (d : List (String × String))
    (tid now : String) (hfresh : tid ∉ s.map Task.id) (hinv : RepoInv s) :
    RepoInv (createTask s d tid now).1 := by
  obtain ⟨hnodup, htimes⟩ := hinv
  constructor
  · rw [show (createTask s d tid now).1 = s ++ [newTask d tid now] from rfl,
      List.map_append]
    refine List.Nodup.append hnodup (List.nodup_singleton _) ?_
    intro a ha hb
    rcases List.mem_singleton.mp hb with rfl
    exact hfresh ha
  · intro u hu
    rw [show (createTask s d tid now).1 = s ++ [newTask d tid now] from rfl] at hu
    rcases List.mem_append.mp hu with hu2 | hu2
    · exact htimes u hu2
    · rcases List.mem_singleton.mp hu2 with rfl
      exact le_refl _

theorem deleteTask_inv (s : List Task) (tid : String) (hinv : RepoInv s) :
    RepoInv (deleteTask s tid).1 := by
  obtain ⟨hnodup, htimes⟩ := hinv
  have hsub : (deleteTask s tid).1.Sublist s := List.filter_sublist _
  constructor
  · exact hnodup.sublist (hsub.map Task.id)
  · intro u hu
    exact htimes u (hsub.mem hu)

theorem runOps_inv : ∀ (ops : List RepOp) (s : List Task),
    RepoInv s → ValidFrom s ops → RepoInv (runOps s ops) := by
  intro ops
  induction ops with
  | nil =>
    intro s h _
    exact h
  | cons op ops ih =>
    intro s hinv hvalid
    obtain ⟨hop, hrest⟩ := hvalid
    have hstep : RepoInv (stepOp s op) := by
      cases op with
      | createOp d tid now => exact createTask_inv s d tid now hop.1 hinv
      | updateOp tid upd now =>
        obtain ⟨hupd, hnow⟩ := hop
        obtain ⟨hnodup, htimes⟩ := hinv
        constructor
        · rw [show stepOp s (.updateOp tid upd now)
              = (updateTask s tid upd now).1 from rfl,
            updateTask_map_id hupd]
          exact hnodup
        · exact updateTask_times hupd tid now s htimes hnow
      | deleteOp tid => exact deleteTask_inv s tid hinv
    exact ih (stepOp s op) hstep hrest

theorem dbUpdate_map_id (rows : List DbTask) (tid : String)
    (upd : List (String × String)) (now : String) :
    ((dbUpdate rows tid upd now).1).map DbTask.id = rows.map DbTask.id := by
  unfold dbUpdate
  cases hfind : rows.find? (fun r => r.id == tid) with
  | none => rfl
  | some r0 =>
    by_cases hemp : (upd.filter (fun p => dbUpdatableCol p.1)).isEmpty = true
    · simp [hemp]
    · simp only [eq_false hemp, if_false]
      rw [List.map_map]
      apply List.map_congr_left
      intro r _
      simp only [Function.comp_apply]
      by_cases hr : r.id = tid
      · rw [if_pos hr]
        rw [show (dbStampUpdated
            (dbApplyUpds r (upd.filter (fun p => dbUpdatableCol p.1))) now).id
            = (dbApplyUpds r (upd.filter (fun p => dbUpdatableCol p.1))).id from rfl]
        exact dbApplyUpds_id (fun p hp => by simpa using List.of_mem_filter hp) r
      · rw [if_neg hr]

theorem updateTask_stamps (s : List Task) (tid : String)
    (upd : List (String × String)) (now : String) :
    ∀ t2, (updateTask s tid upd now).2 = some t2 → t2.updated_at = now := by
  induction s with
  | nil =>
    intro t2 h
    simp [updateTask] at h
  | cons t ts ih =>
    intro t2 h
    by_cases ht : t.id = tid
    · rw [show (updateTask (t :: ts) tid upd now).2
          = some (stampUpdated (applyUpds t upd) now) from by
            simp [updateTask, ht]] at h
      injection h with h2
      rw [← h2]
      rfl
    · rw [show (updateTask (t :: ts) tid upd now).2
          = (updateTask ts tid upd now).2 from by simp [updateTask, ht]] at h
      exact ih t2 h

/-- Claim C4 (amended): over any valid operation sequence — fresh ids,
clock at least every stored creation time, and flat-file updates that do
not name id or created_at (the CSV variant lets an update overwrite
both; the database variant forbids it) — the repository keeps ids
pairwise distinct with updated_at at least created_at; an update leaves
the stored ids unchanged (unconditionally so in the database variant)
and stamps the returned record's updated_at with the mutation time. -/
theorem repository_invariants_preserved :
    (∀ (s : List Task) (ops : List RepOp),
      RepoInv s → ValidFrom s ops → RepoInv (runOps s ops)) ∧
    (∀ (s : List Task) (tid : String) (upd : List (String × String)) (now : String),
      UpdOk upd → ((updateTask s tid upd now).1).map Task.id = s.map Task.id) ∧
    (∀ (rows : List DbTask) (tid : String) (upd : List (String × String)) (now : String),
      ((dbUpdate rows tid upd now).1).map DbTask.id = rows.map DbTask.id) ∧
    (∀ (s : List Task) (tid : String) (upd : List (String × String)) (now : String) t2,
      (updateTask s tid upd now).2 = some t2 → t2.updated_at = now) :=
  ⟨fun s ops => runOps_inv ops s,
   fun s tid _upd now h => updateTask_map_id h s tid now,
   dbUpdate_map_id,
   fun s tid upd now => updateTask_stamps s tid upd now⟩

/-- Claim C4 witness: a concrete create-then-update run satisfies the
side conditions and preserves the invariant. -/
theorem repository_invariants_preserved_witness :
    RepoInv (runOps [] [RepOp.createOp [("title", "x")] "w1" "T1",
        RepOp.updateOp "w1" [("title", "y")] "T1"]) ∧
    ((updateTask [sampleTask] "a1" [("title", "y")] "T2").1).map Task.id
        = [sampleTask].map Task.id ∧
    ({ sampleTask with title := "y", updated_at := "T2" } : Task).updated_at
        = "T2" := by
  refine ⟨?_, ?_, ?_⟩
  · refine repository_invariants_preserved.1 [] _
      ⟨List.nodup_nil, by simp⟩
      ⟨⟨by simp, by simp⟩, ⟨?_, ?_⟩, trivial⟩
    · intro p hp
      rcases List.mem_singleton.mp hp with rfl
      exact ⟨by decide, by decide⟩
    · intro t ht
      rcases List.mem_singleton.mp ht with rfl
      exact le_refl _
  · refine repository_invariants_preserved.2.1 [sampleTask] "a1"
      [("title", "y")] "T2" ?_
    intro p hp
    rcases List.mem_singleton.mp hp with rfl
    exact ⟨by decide, by decide⟩
  · exact repository_invariants_preserved.2.2.2 [sampleTask] "a1"
      [("title", "y")] "T2" _ (by decide)

/-! ## Claim C5 -/

theorem updateTask_decomp (tid : String) (upd : List (String × String))
    (now : String) :
    ∀ (l1 : List Task) (t : Task) (l2 : List Task),
      (∀ u ∈ l1, u.id ≠ tid) → t.id = tid →
      updateTask (l1 ++ t :: l2) tid upd now
        = (l1 ++ stampUpdated (applyUpds t upd) now :: l2,
           some (stampUpdated (applyUpds t upd) now)) := by
  intro l1
  induction l1 with
  | nil =>
    intro t l2 _ ht
    simp [updateTask, ht]
  | cons u l1 ih =>
    intro t l2 h1 ht
    have hu : u.id ≠ tid := h1 u (by simp)
    have ih2 := ih t l2 (fun x hx => h1 x (List.mem_cons_of_mem _ hx)) ht
    simp [updateTask, hu, ih2]

theorem getFieldStr?_set_same (t : Task) (f v now : String)
    (hf : f ∈ mutableDataFields) :
    getFieldStr? (stampUpdated (setField t f v) now) f = some v := by
  simp only [mutableDataFields, List.mem_cons, List.mem_singleton,
    List.not_mem_nil, or_false] at hf
  rcases hf with rfl | rfl | rfl | rfl | rfl | rfl <;> rfl

theorem getFieldStr?_set_other (t : Task) (f v now g : String)
    (hf : f ∈ mutableDataFields) (hg : g ∈ taskFieldnames)
    (hgf : g ≠ f) (hgu : g ≠ "updated_at") :
    getFieldStr? (stampUpdated (setField t f v) now) g = getFieldStr? t g := by
  simp only [mutableDataFields, List.mem_cons, List.mem_singleton,
    List.not_mem_nil, or_false] at hf
  simp only [taskFieldnames, List.mem_cons, List.mem_singleton,
    List.not_mem_nil, or_false] at hg
  rcases hf with rfl | rfl | rfl | rfl | rfl | rfl <;>
    rcases hg with rfl | rfl | rfl | rfl | rfl | rfl | rfl | rfl | rfl <;>
    first
      | rfl
      | exact absurd rfl hgf
      | exact absurd rfl hgu

theorem dbUpdatable_of_mutable {f : String} (hf : f ∈ mutableDataFields) :
    dbUpdatableCol f = true := by
  simp only [mutableDataFields, List.mem_cons, List.mem_singleton,
    List.not_mem_nil, or_false] at hf
  rcases hf with rfl | rfl | rfl | rfl | rfl | rfl <;> rfl

theorem dbColVal?_set_same (r : DbTask) (f v now : String)
    (hf : f ∈ mutableDataFields) :
    dbColVal? (dbStampUpdated (dbSetField r f v) now) f = some v := by
  simp only [mutableDataFields, List.mem_cons, List.mem_singleton,
    List.not_mem_nil, or_false] at hf
  rcases hf with rfl | rfl | rfl | rfl | rfl | rfl <;> rfl

theorem dbColVal?_set_other (r : DbTask) (f v now g : String)
    (hf : f ∈ mutableDataFields) (hg : g ∈ dbColumns)
    (hgf : g ≠ f) (hgu : g ≠ "updated_at") :
    dbColVal? (dbStampUpdated (dbSetField r f v) now) g = dbColVal? r g := by
  simp only [mutableDataFields, List.mem_cons, List.mem_singleton,
    List.not_mem_nil, or_false] at hf
  simp only [dbColumns, List.mem_cons, List.mem_singleton,
    List.not_mem_nil, or_false] at hg
  rcases hf with rfl | rfl | rfl | rfl | rfl | rfl <;>
    rcases hg with rfl | rfl | rfl | rfl | rfl | rfl | rfl | rfl | rfl <;>
    first
      | rfl
      | exact absurd rfl hgf
      | exact absurd rfl hgu

theorem dbFindFirst (tid : String) :
    ∀ (l1 : List DbTask) (x : DbTask) (l2 : List DbTask),
      (∀ u ∈ l1, u.id ≠ tid) → x.id = tid →
      (l1 ++ x :: l2).find? (fun r => r.id == tid) = some x := by
  intro l1
  induction l1 with
  | nil =>
    intro x l2 _ hx
    simp [List.find?, hx]
  | cons u l1 ih =>
    intro x l2 h1 hx
    have hu : u.id ≠ tid := h1 u (by simp)
    have hbu : (u.id == tid) = false := by simp [hu]
    have ih2 := ih x l2 (fun y hy => h1 y (List.mem_cons_of_mem _ hy)) hx
    simp [List.find?, hbu, ih2]

theorem dbUpdate_decomp (tid f v now : String) (l1 : List DbTask) (r : DbTask)
    (l2 : List DbTask)
    (h1 : ∀ u ∈ l1, u.id ≠ tid) (hr : r.id = tid)
    (h2 : ∀ u ∈ l2, u.id ≠ tid) (hf : f ∈ mutableDataFields) :
    dbUpdate (l1 ++ r :: l2) tid [(f, v)] now
      = (l1 ++ dbStampUpdated (dbSetField r f v) now :: l2,
         some (dbStampUpdated (dbSetField r f v) now)) := by
  have hupd : dbUpdatableCol f = true := dbUpdatable_of_mutable hf
  have hfilter : ([(f, v)].filter (fun p => dbUpdatableCol p.1)) = [(f, v)] := by
    simp [hupd]
  have hfind := dbFindFirst tid l1 r l2 h1 hr
  have hsid : (dbStampUpdated (dbSetField r f v) now).id = r.id := by
    rw [show (dbStampUpdated (dbSetField r f v) now).id
        = (dbSetField r f v).id from rfl]
    exact dbSetField_id (dbUpdatableCol_ne_id hupd)
  have happly : dbApplyUpds r [(f, v)] = dbSetField r f v := rfl
  have hmap : (l1 ++ r :: l2).map (fun u =>
      if u.id = tid then dbStampUpdated (dbApplyUpds u [(f, v)]) now else u)
      = l1 ++ dbStampUpdated (dbSetField r f v) now :: l2 := by
    rw [List.map_append, List.map_cons]
    have e1 : l1.map (fun u =>
        if u.id = tid then dbStampUpdated (dbApplyUpds u [(f, v)]) now else u)
        = l1 := by
      rw [List.map_congr_left (fun u hu => if_neg (h1 u hu))]
      exact List.map_id' l1
    have e2 : l2.map (fun u =>
        if u.id = tid then dbStampUpdated (dbApplyUpds u [(f, v)]) now else u)
        = l2 := by
      rw [List.map_congr_left (fun u hu => if_neg (h2 u hu))]
      exact List.map_id' l2
    rw [e1, e2, if_pos hr, happly]
  unfold dbUpdate
  rw [hfind]
  simp only [hfilter, List.isEmpty_cons, if_false, Bool.false_eq_true, hmap]
  rw [dbFindFirst tid l1 (dbStampUpdated (dbSetField r f v) now) l2 h1
    (hsid.trans hr)]

/-- Claim C5 (amended): a single-field update on a present record, for
any of the mutable data fields (title, description, priority, due_date,
category, status), sets exactly that field to the supplied value, stamps
updated_at with the mutation time, leaves every other field of the
record with its pre-update value, and leaves every other record
untouched — in both the CSV and the database variant.  (Naming
updated_at itself yields the stamp rather than the supplied value, and
the database variant ignores id and created_at.) -/
theorem update_single_field_frame :
    (∀ (l1 l2 : List Task) (t : Task) (tid f v now : String),
      (∀ u ∈ l1, u.id ≠ tid) → t.id = tid → f ∈ mutableDataFields →
      (updateTask (l1 ++ t :: l2) tid [(f, v)] now).1
          = l1 ++ stampUpdated (setField t f v) now :: l2 ∧
      (updateTask (l1 ++ t :: l2) tid [(f, v)] now).2
          = some (stampUpdated (setField t f v) now) ∧
      getFieldStr? (stampUpdated (setField t f v) now) f = some v ∧
      (stampUpdated (setField t f v) now).updated_at = now ∧
      (∀ g ∈ taskFieldnames, g ≠ f → g ≠ "updated_at" →
        getFieldStr? (stampUpdated (setField t f v) now) g = getFieldStr? t g)) ∧
    (∀ (l1 l2 : List DbTask) (r : DbTask) (tid f v now : String),
      (∀ u ∈ l1, u.id ≠ tid) → r.id = tid → (∀ u ∈ l2, u.id ≠ tid) →
      f ∈ mutableDataFields →
      (dbUpdate (l1 ++ r :: l2) tid [(f, v)] now).1
          = l1 ++ dbStampUpdated (dbSetField r f v) now :: l2 ∧
      (dbUpdate (l1 ++ r :: l2) tid [(f, v)] now).2
          = some (dbStampUpdated (dbSetField r f v) now) ∧
      dbColVal? (dbStampUpdated (dbSetField r f v) now) f = some v ∧
      (dbStampUpdated (dbSetField r f v) now).updated_at = now ∧
      (∀ g ∈ dbColumns, g ≠ f → g ≠ "updated_at" →
        dbColVal? (dbStampUpdated (dbSetField r f v) now) g = dbColVal? r g)) := by
  constructor
  · intro l1 l2 t tid f v now h1 ht hf
    have hdec := updateTask_decomp tid [(f, v)] now l1 t l2 h1 ht
    rw [show applyUpds t [(f, v)] = setField t f v from rfl] at hdec
    refine ⟨?_, ?_, getFieldStr?_set_same t f v now hf, rfl, ?_⟩
    · rw [hdec]
    · rw [hdec]
    · intro g hg hgf hgu
      exact getFieldStr?_set_other t f v now g hf hg hgf hgu
  · intro l1 l2 r tid f v now h1 hr h2 hf
    have hdec := dbUpdate_decomp tid f v now l1 r l2 h1 hr h2 hf
    refine ⟨?_, ?_, dbColVal?_set_same r f v now hf, rfl, ?_⟩
    · rw [hdec]
    · rw [hdec]
    · intro g hg hgf hgu
      exact dbColVal?_set_other r f v now g hf hg hgf hgu

/-- Claim C5 witness. -/
theorem update_single_field_frame_witness :
    (updateTask [sampleTask] "a1" [("status", "completed")] "T2").2
        = some (stampUpdated (setField sampleTask "status" "completed") "T2") ∧
    (dbUpdate [dbRow0] "a1" [("status", "completed")] "T2").2
        = some (dbStampUpdated (dbSetField dbRow0 "status" "completed") "T2") :=
  ⟨(update_single_field_frame.1 [] [] sampleTask "a1" "status" "completed" "T2"
      (by simp) rfl (by decide)).2.1,
   (update_single_field_frame.2 [] [] dbRow0 "a1" "status" "completed" "T2"
      (by simp) rfl (by simp) (by decide)).2.1⟩

/-! ## Claim C3 -/

theorem likeSkip_iff (f : List Char → Bool) :
    ∀ s, likeSkip f s = true ↔ ∃ a b, s = a ++ b ∧ f b = true := by
  intro s
  induction s with
  | nil =>
    constructor
    · intro h
      exact ⟨[], [], rfl, h⟩
    · rintro ⟨a, b, hab, hb⟩
      rcases List.append_eq_nil.mp hab.symm with ⟨rfl, rfl⟩
      exact hb
  | cons d s2 ih =>
    simp only [likeSkip, Bool.or_eq_true, ih]
    constructor
    · rintro (hf | ⟨a, b, rfl, hb⟩)
      · exact ⟨[], d :: s2, rfl, hf⟩
      · exact ⟨d :: a, b, rfl, hb⟩
    · rintro ⟨a, b, hab, hb⟩
      cases a with
      | nil =>
        left
        rw [List.nil_append] at hab
        rw [hab]
        exact hb
      | cons a0 a1 =>
        right
        rw [List.cons_append] at hab
        injection hab with h0 h1
        exact ⟨a1, b, h1, hb⟩

theorem likeLit_iff : ∀ w : List Char, (∀ c ∈ w, c ≠ '%' ∧ c ≠ '_') →
    ∀ s, likeMatch (w ++ ['%']) s = true ↔ ∃ b, s = w ++ b := by
  intro w
  induction w with
  | nil =>
    intro _ s
    rw [List.nil_append,
      show likeMatch ['%'] s = likeSkip (likeMatch []) s from by
        simp [likeMatch],
      likeSkip_iff]
    constructor
    · intro _
      exact ⟨s, rfl⟩
    · intro _
      exact ⟨s, [], by simp, by simp [likeMatch]⟩
  | cons c w ih =>
    intro hw s
    have hc := hw c (by simp)
    have hw2 : ∀ x ∈ w, x ≠ '%' ∧ x ≠ '_' :=
      fun x hx => hw x (List.mem_cons_of_mem _ hx)
    cases s with
    | nil =>
      rw [List.cons_append]
      constructor
      · intro h
        rw [show likeMatch (c :: (w ++ ['%'])) [] = false from by
          simp [likeMatch, hc.1]] at h
        exact absurd h (by simp)
      · rintro ⟨b, hb⟩
        exact absurd hb (by simp)
    | cons d s2 =>
      rw [List.cons_append,
        show likeMatch (c :: (w ++ ['%'])) (d :: s2)
          = ((c == d) && likeMatch (w ++ ['%']) s2) from by
          simp [likeMatch, hc.1, hc.2]]
      simp only [Bool.and_eq_true, beq_iff_eq]
      constructor
      · rintro ⟨hcd, hm⟩
        obtain ⟨b, rfl⟩ := (ih hw2 s2).mp hm
        exact ⟨b, by rw [hcd, List.cons_append]⟩
      · rintro ⟨b, hb⟩
        injection hb with h0 h1
        exact ⟨h0.symm, (ih hw2 s2).mpr ⟨b, h1⟩⟩

theorem dbLike_iff (col v : String)
    (hw : ∀ c ∈ strLower v, c ≠ '%' ∧ c ≠ '_') :
    dbLike col v = true ↔ ContainsCI col v := by
  unfold dbLike ContainsCI
  rw [show ('%' :: strLower v ++ ['%']) = '%' :: (strLower v ++ ['%']) from rfl,
    show likeMatch ('%' :: (strLower v ++ ['%'])) (strLower col)
      = likeSkip (likeMatch (strLower v ++ ['%'])) (strLower col) from by
      simp [likeMatch],
    likeSkip_iff]
  constructor
  · rintro ⟨a, b, hs, hb⟩
    obtain ⟨b2, rfl⟩ := (likeLit_iff (strLower v) hw b).mp hb
    exact ⟨a, b2, by rw [hs, List.append_assoc]⟩
  · rintro ⟨a, b2, hs⟩
    exact ⟨a, strLower v ++ b2, by rw [hs, List.append_assoc],
      (likeLit_iff (strLower v) hw _).mpr ⟨b2, rfl⟩⟩

theorem searchTasks_mem (s : List Task) (fs : List (String × String)) (t : Task) :
    t ∈ searchTasks s fs ↔ t ∈ s ∧ ∀ p ∈ fs, csvSpecMatch t p.1 p.2 := by
  have boolIff : ∀ a b : Bool, ((!(a && !b)) = true) ↔ (a = true → b = true) := by
    decide
  unfold searchTasks csvSpecMatch taskMatches
  rw [List.mem_filter, List.all_eq_true]
  simp only [boolIff]

theorem buildConds_sound (r : DbTask) :
    ∀ fs : List (String × String),
      (∀ p ∈ fs, ∀ c ∈ strLower p.2, c ≠ '%' ∧ c ≠ '_') →
      ((∀ c ∈ buildConds fs, evalCond r c = true) ↔
        ∀ p ∈ fs, dbSpecMatch r p.1 p.2) := by
  intro fs
  induction fs with
  | nil =>
    intro _
    simp [buildConds]
  | cons p fs ih =>
    intro hw
    have hwp := hw p (by simp)
    have hw2 : ∀ q ∈ fs, ∀ c ∈ strLower q.2, c ≠ '%' ∧ c ≠ '_' :=
      fun q hq => hw q (List.mem_cons_of_mem _ hq)
    rw [List.forall_mem_cons]
    by_cases h1 : (p.1 = "title" ∨ p.1 = "description" ∨ p.1 = "category") ∧ p.2 ≠ ""
    · rw [show buildConds (p :: fs) = .likeCond p.1 p.2 :: buildConds fs from by
        simp [buildConds, List.filterMap_cons, h1]]
      rw [List.forall_mem_cons, ih hw2]
      have hmatch : evalCond r (.likeCond p.1 p.2) = true ↔ dbSpecMatch r p.1 p.2 := by
        rw [show dbSpecMatch r p.1 p.2
            = (∃ s, dbColVal? r p.1 = some s ∧ ContainsCI s p.2) from by
          simp [dbSpecMatch, h1]]
        cases hcol : dbColVal? r p.1 with
        | none => simp [evalCond, hcol]
        | some s0 =>
          simp only [evalCond, hcol, Option.some.injEq]
          rw [dbLike_iff s0 p.2 hwp]
          constructor
          · intro h
            exact ⟨s0, rfl, h⟩
          · rintro ⟨s1, rfl, h⟩
            exact h
      rw [hmatch]
    · by_cases h2 : (p.1 = "status" ∨ p.1 = "priority") ∧ p.2 ≠ ""
      · have hnotft : ¬(p.1 = "title" ∨ p.1 = "description" ∨ p.1 = "category") :=
          fun hft => h1 ⟨hft, h2.2⟩
        rw [show buildConds (p :: fs) = .eqCond p.1 p.2 :: buildConds fs from by
          simp [buildConds, List.filterMap_cons, hnotft, h2]]
        rw [List.forall_mem_cons, ih hw2]
        have hmatch : evalCond r (.eqCond p.1 p.2) = true ↔ dbSpecMatch r p.1 p.2 := by
          rw [show dbSpecMatch r p.1 p.2 = (dbColVal? r p.1 = some p.2) from by
            simp [dbSpecMatch, hnotft, h2]]
          cases hcol : dbColVal? r p.1 with
          | none => simp [evalCond, hcol]
          | some s0 => simp [evalCond, hcol]
        rw [hmatch]
      · rw [show buildConds (p :: fs) = buildConds fs from by
          simp [buildConds, List.filterMap_cons, h1, h2]]
        rw [ih hw2,
          show dbSpecMatch r p.1 p.2 = True from by simp [dbSpecMatch, h1, h2]]
        simp

/-- Claim C3 (amended): only the database variant implements the spec's
mixed semantics — case-insensitive substring (LIKE) on the free-text
columns and equality on status/priority, with empty values and unknown
fields imposing nothing; in the CSV variant every supplied predicate on
an existing attribute is an exact comparison. -/
theorem search_filter_semantics_by_backend :
    (∀ (rows : List DbTask) (fs : List (String × String)) (r : DbTask),
      (∀ p ∈ fs, ∀ c ∈ strLower p.2, c ≠ '%' ∧ c ≠ '_') →
      (r ∈ dbSearch rows fs ↔ r ∈ rows ∧ ∀ p ∈ fs, dbSpecMatch r p.1 p.2)) ∧
    (∀ (s : List Task) (fs : List (String × String)) (t : Task),
      t ∈ searchTasks s fs ↔ t ∈ s ∧ ∀ p ∈ fs, csvSpecMatch t p.1 p.2) := by
  constructor
  · intro rows fs r hw
    unfold dbSearch
    rw [List.mem_filter, List.all_eq_true, buildConds_sound r fs hw]
  · exact searchTasks_mem

/-- Claim C3 witness: a title filter on the database variant returns the
row whose title contains the value case-insensitively, and an exact
priority filter on the CSV variant returns the matching record. -/
theorem search_filter_semantics_by_backend_witness :
    dbRow0 ∈ dbSearch [dbRow0] [("title", "milk")] ∧
    sampleTask ∈ searchTasks [sampleTask] [("priority", "high")] := by
  constructor
  · refine (search_filter_semantics_by_backend.1 [dbRow0] [("title", "milk")]
      dbRow0 (by decide)).mpr ⟨by decide, ?_⟩
    intro p hp
    rcases List.mem_singleton.mp hp with rfl
    rw [show dbSpecMatch dbRow0 "title" "milk"
        = (∃ s, dbColVal? dbRow0 "title" = some s ∧ ContainsCI s "milk") from by
      simp [dbSpecMatch]]
    exact ⟨"Buy milk", rfl, ⟨['b', 'u', 'y', ' '], [], by decide⟩⟩
  · refine (search_filter_semantics_by_backend.2 [sampleTask]
      [("priority", "high")] sampleTask).mpr ⟨by decide, ?_⟩
    intro p hp
    rcases List.mem_singleton.mp hp with rfl
    intro _
    decide

end TCMS
